import Mathlib

/-!
Verification of the training-orchestration core of
`src/pipelines/mv4-conv-large-imagenet-1k.py`: the streaming metric
accumulator, the evaluation-cadence controller, the gradient-clipping gate,
the mixed-precision step executor, and the warmup-cosine learning-rate
schedule.  Scalar float quantities are embedded as rationals (reals where
the schedule needs `cos`); the per-sample top-5 prediction produced by
`outputs.topk(5, 1, True, True)` is embedded as a list of class indices in
rank order.
-/

namespace TinyLib

/-- One metric record, as appended to `train_metrics` / `test_metrics`:
the `loss`, `top1` and `top5` values of one epoch. -/
structure EpochRecord where
  loss : ℚ
  top1 : ℚ
  top5 : ℚ
  deriving DecidableEq, Repr

/-- One sample of a batch: the model's top-5 predicted class indices for it
(rows of `pred = outputs.topk(5, 1, True, True)` transposed, in rank order)
together with its ground-truth label. -/
structure Sample where
  pred : List ℕ
  label : ℕ
  deriving DecidableEq, Repr

/-- One batch consumed by a metric pass: its samples and the scalar loss
value `loss.item()` reported for the batch. -/
structure Batch where
  samples : List Sample
  lossVal : ℚ
  deriving DecidableEq, Repr

/-- `correct[:1].float().sum()` restricted to one sample: `1` when the
top-ranked prediction equals the label, else `0`. -/
def top1Hit (s : Sample) : ℕ :=
  if s.pred.head? = some s.label then 1 else 0

/-- `correct[:5].float().sum()` restricted to one sample: the number of
rows among the first five prediction rows that equal the label. -/
def top5Hit (s : Sample) : ℕ :=
  (s.pred.take 5).count s.label

/-- The running totals of one metric pass (`total_loss`, `total_samples`,
`top1_correct`, `top5_correct` in `validate`; the `running_*` variables of
the training loop are the same shape). -/
structure AccState where
  totalLoss : ℚ
  totalSamples : ℕ
  top1Correct : ℕ
  top5Correct : ℕ
  deriving DecidableEq, Repr

/-- The per-batch body of a metric pass:
`total_loss += loss.item() * batch_size`, `total_samples += batch_size`,
and the top-1/top-5 hit counts, where `batch_size = labels.size(0)` is the
batch's actual sample count. -/
def stepAcc (st : AccState) (b : Batch) : AccState :=
  { totalLoss := st.totalLoss + b.lossVal * b.samples.length
    totalSamples := st.totalSamples + b.samples.length
    top1Correct := st.top1Correct + (b.samples.map top1Hit).sum
    top5Correct := st.top5Correct + (b.samples.map top5Hit).sum }

/-- A whole metric pass over a batch stream, starting from zero totals. -/
def runAcc (bs : List Batch) : AccState :=
  bs.foldl stepAcc ⟨0, 0, 0, 0⟩

/-- Finalization of `validate`:
`avg_loss = total_loss / total_samples`,
`top1_acc = (top1_correct / total_samples) * 100.0`,
`top5_acc = (top5_correct / total_samples) * 100.0`.
In Python the division raises `ZeroDivisionError` when `total_samples == 0`;
the embedding returns `none` there. -/
def finalize (st : AccState) : Option EpochRecord :=
  if st.totalSamples = 0 then none
  else some
    { loss := st.totalLoss / st.totalSamples
      top1 := ((st.top1Correct : ℚ) / st.totalSamples) * 100
      top5 := ((st.top5Correct : ℚ) / st.totalSamples) * 100 }

/-- The `validate` function: one metric pass plus finalization. -/
def validate (bs : List Batch) : Option EpochRecord :=
  finalize (runAcc bs)

/-- Total weighted loss of a stream: sum over batches of
`loss_value * batch_size`. -/
def lossSum (bs : List Batch) : ℚ :=
  (bs.map (fun b => b.lossVal * (b.samples.length : ℚ))).sum

/-- Total sample count of a stream. -/
def countSamples (bs : List Batch) : ℕ :=
  (bs.map (fun b => b.samples.length)).sum

/-- Total top-1 hit count of a stream. -/
def top1Sum (bs : List Batch) : ℕ :=
  (bs.map (fun b => (b.samples.map top1Hit).sum)).sum

/-- Total top-5 hit count of a stream. -/
def top5Sum (bs : List Batch) : ℕ :=
  (bs.map (fun b => (b.samples.map top5Hit).sum)).sum

theorem foldl_stepAcc (bs : List Batch) (st : AccState) :
    bs.foldl stepAcc st =
      ⟨st.totalLoss + lossSum bs, st.totalSamples + countSamples bs,
       st.top1Correct + top1Sum bs, st.top5Correct + top5Sum bs⟩ := by
  induction bs generalizing st with
  | nil =>
      cases st
      simp [lossSum, countSamples, top1Sum, top5Sum]
  | cons b bs ih =>
      simp only [List.foldl_cons, ih, stepAcc, lossSum, countSamples,
        top1Sum, top5Sum, List.map_cons, List.sum_cons, AccState.mk.injEq]
      refine ⟨by ring, by omega, by omega, by omega⟩

theorem runAcc_spec (bs : List Batch) :
    runAcc bs = ⟨lossSum bs, countSamples bs, top1Sum bs, top5Sum bs⟩ := by
  simpa using foldl_stepAcc bs ⟨0, 0, 0, 0⟩

/-! ## Evaluation-cadence controller -/

/-- The all-zero sentinel record the controller falls back to when a
metric history is still empty (`... if len(...) > 0 else 0.0`). -/
def zeroRec : EpochRecord := ⟨0, 0, 0⟩

/-- The two metric histories: `train_metrics` and `test_metrics`, each a
record per recorded epoch (the source keeps three parallel lists per
history; a list of records is the same data batch-transposed). -/
structure LoopState where
  trainHist : List EpochRecord
  testHist : List EpochRecord
  deriving DecidableEq, Repr

/-- The per-epoch metric bookkeeping of `main`'s loop body for epoch
`e`, given the interval `k = METRICS_UPDATE_STEP`, the record `trainRes e`
the training pass produced, and the record `testRes e` that `validate`
would produce at this point.  Returns the new state, the test record used
for this epoch's report, and whether a genuine test evaluation executed:
if `e % k == 0` the evaluation runs and both histories are appended;
otherwise the last test record (or the zero sentinel) is reused for the
report and only the train history is appended. -/
def runEpoch (k : ℕ) (trainRes testRes : ℕ → EpochRecord) (e : ℕ)
    (st : LoopState) : LoopState × EpochRecord × Bool :=
  if e % k = 0 then
    (⟨st.trainHist ++ [trainRes e], st.testHist ++ [testRes e]⟩, testRes e, true)
  else
    (⟨st.trainHist ++ [trainRes e], st.testHist⟩,
     st.testHist.getLastD zeroRec, false)

/-- The epoch loop run for the first `n` epochs, from empty histories. -/
def runEpochs (k : ℕ) (trainRes testRes : ℕ → EpochRecord) : ℕ → LoopState
  | 0 => ⟨[], []⟩
  | n + 1 => (runEpoch k trainRes testRes n (runEpochs k trainRes testRes n)).1

/-- The best-value query `max(history) if history else 0.0`, applied to one
field's list of a metric history. -/
def bestOf (l : List ℚ) : ℚ :=
  match l with
  | [] => 0
  | h :: t => t.foldl max h

/-! ## Gradient-clipping gate -/

/-- `WARMUP_STEPS` as computed in `main`:
`NUM_STEPS = len(train_loader) * NUM_EPOCHS; WARMUP_STEPS = NUM_STEPS // 100`. -/
def warmupStepsOf (stepsPerEpoch numEpochs : ℕ) : ℕ :=
  stepsPerEpoch * numEpochs / 100

/-- The clipping gate as written in the source: gradients are clipped
when `epoch > WARMUP_STEPS`, comparing the epoch index with a step count. -/
def clipGate (warmupSteps epoch : ℕ) : Bool :=
  warmupSteps < epoch

/-- Modelled from the spec: the intended gate of §4.3 — clipping applies
exactly once the warmup phase, measured in optimization steps, has ended,
i.e. when the global step counter has reached `warmup_steps`. -/
def specClipGate (warmupSteps step : ℕ) : Bool :=
  warmupSteps ≤ step

/-- The global step counter at batch `i` of epoch `e` when every epoch
runs `stepsPerEpoch` optimization steps. -/
def stepIndex (stepsPerEpoch e i : ℕ) : ℕ :=
  e * stepsPerEpoch + i

/-! ## Loss scaler and step executor -/

/-- `scale_factor` and the consecutive-success counter of the loss scaler.
Modelled from the spec (§4.2): `torch.amp.GradScaler` is an external
collaborator, not under `src/`. -/
structure ScalerState where
  scale : ℚ
  growthCount : ℕ
  deriving DecidableEq, Repr

/-- Modelled from the spec (§4.2): one `scaler.step(optimizer)` +
`scaler.update()` pair with growth interval `N`, acting on the (abstract)
parameter vector `p` whose finished update would be `upd p`.  If any
gradient is non-finite the update is skipped (`p` unchanged), the scale is
halved and the success counter resets; otherwise the update proceeds and
after `N` consecutive successful steps the scale doubles. -/
def scalerStep (N : ℕ) (gradFinite : Bool) (upd : ℚ → ℚ) (p : ℚ)
    (st : ScalerState) : ScalerState × ℚ :=
  if gradFinite then
    (if st.growthCount + 1 = N then ⟨st.scale * 2, 0⟩
     else ⟨st.scale, st.growthCount + 1⟩, upd p)
  else
    (⟨st.scale / 2, 0⟩, p)

/-- `k` consecutive all-finite scaler steps (the parameter vector is
irrelevant to the scale evolution, so it is fixed). -/
def scalerRun (N : ℕ) (st : ScalerState) : ℕ → ScalerState
  | 0 => st
  | k + 1 => (scalerStep N true id 0 (scalerRun N st k)).1

/-- The state touched by one iteration of the inner training loop of
`main`: the scheduler's step counter, the scaler, the abstract parameter
vector, and the running metric totals. -/
structure StepState where
  schedCount : ℕ
  scaler : ScalerState
  params : ℚ
  metrics : AccState
  deriving DecidableEq, Repr

/-- One iteration of the inner training loop of `main`, for a batch `b`
whose gradients are finite iff `gradFinite` and whose successful optimizer
update would be `upd`: `scaler.step(optimizer); scaler.update()` (skipping
the update on non-finite gradients), then the running-metric updates
`running_loss += loss.item() * labels.size(0)` etc., then
`scheduler.step()` — the scheduler advance and the metric accumulation are
unconditional in the source. -/
def trainStep (N : ℕ) (gradFinite : Bool) (upd : ℚ → ℚ) (b : Batch)
    (st : StepState) : StepState :=
  let sp := scalerStep N gradFinite upd st.params st.scaler
  { schedCount := st.schedCount + 1
    scaler := sp.1
    params := sp.2
    metrics := stepAcc st.metrics b }

/-! ## Warmup-cosine learning-rate schedule -/

/-- Modelled from the spec (§4.1): the cosine-phase progress of
`pile.schedulers.WarmupCosineScheduler` (not under `src/`),
`progress = (step - warmup_steps) / max(1, total_steps - warmup_steps)`
clamped to `[0, 1]`. -/
noncomputable def progressAt (T w s : ℕ) : ℝ :=
  min 1 (max 0 (((s : ℝ) - w) / max 1 ((T : ℝ) - w)))

/-- Modelled from the spec (§4.1): the learning rate
`pile.schedulers.WarmupCosineScheduler` (not under `src/`) writes at step
counter `s`: a linear ramp `base_lr * (step + 1) / warmup_steps` while
`step < warmup_steps`, then cosine decay
`base_lr * 0.5 * (1 + cos(pi * progress))`. -/
noncomputable def lrAt (base : ℝ) (T w s : ℕ) : ℝ :=
  if s < w then base * ((s : ℝ) + 1) / w
  else base * (0.5 * (1 + Real.cos (Real.pi * progressAt T w s)))

theorem progressAt_nonneg (T w s : ℕ) : 0 ≤ progressAt T w s :=
  le_min zero_le_one (le_max_left 0 _)

theorem progressAt_le_one (T w s : ℕ) : progressAt T w s ≤ 1 :=
  min_le_left 1 _

theorem progressAt_mono (T w : ℕ) {s t : ℕ} (hst : s ≤ t) :
    progressAt T w s ≤ progressAt T w t := by
  unfold progressAt
  have hD : (0 : ℝ) < max 1 ((T : ℝ) - w) :=
    lt_of_lt_of_le one_pos (le_max_left 1 _)
  have hnum : ((s : ℝ) - w) / max 1 ((T : ℝ) - w)
      ≤ ((t : ℝ) - w) / max 1 ((T : ℝ) - w) := by
    apply (div_le_div_iff_of_pos_right hD).2
    have : (s : ℝ) ≤ t := Nat.cast_le.2 hst
    linarith
  exact min_le_min le_rfl (max_le_max le_rfl hnum)

theorem progressAt_total (T w : ℕ) (hwT : w < T) : progressAt T w T = 1 := by
  have h1 : (1 : ℝ) ≤ (T : ℝ) - w := by
    have : (w : ℝ) + 1 ≤ T := by exact_mod_cast Nat.succ_le_of_lt hwT
    linarith
  have hD : max 1 ((T : ℝ) - w) = (T : ℝ) - w := max_eq_right h1
  have hne : (T : ℝ) - w ≠ 0 := by linarith
  simp [progressAt, hD, div_self hne]

theorem lrAt_cos_le (base : ℝ) (T w : ℕ) (hb : 0 ≤ base) {s t : ℕ}
    (hw : w ≤ s) (hst : s ≤ t) : lrAt base T w t ≤ lrAt base T w s := by
  rw [lrAt, if_neg (by omega), lrAt, if_neg (by omega)]
  have hps : 0 ≤ progressAt T w s := progressAt_nonneg T w s
  have hpt : progressAt T w t ≤ 1 := progressAt_le_one T w t
  have hmono : progressAt T w s ≤ progressAt T w t := progressAt_mono T w hst
  have hcos : Real.cos (Real.pi * progressAt T w t)
      ≤ Real.cos (Real.pi * progressAt T w s) := by
    apply Real.cos_le_cos_of_nonneg_of_le_pi
    · exact mul_nonneg Real.pi_pos.le hps
    · calc Real.pi * progressAt T w t ≤ Real.pi * 1 :=
          mul_le_mul_of_nonneg_left hpt Real.pi_pos.le
        _ = Real.pi := mul_one _
    · exact mul_le_mul_of_nonneg_left hmono Real.pi_pos.le
  have h05 : (0 : ℝ) ≤ 0.5 := by norm_num
  apply mul_le_mul_of_nonneg_left _ hb
  apply mul_le_mul_of_nonneg_left _ h05
  linarith

/-! ## Helper lemmas -/

theorem validate_eq (bs : List Batch) (h : countSamples bs ≠ 0) :
    validate bs = some
      { loss := lossSum bs / countSamples bs
        top1 := ((top1Sum bs : ℚ) / countSamples bs) * 100
        top5 := ((top5Sum bs : ℚ) / countSamples bs) * 100 } := by
  unfold validate finalize
  rw [runAcc_spec]
  simp [h]

theorem top1Hit_le_top5Hit (s : Sample) : top1Hit s ≤ top5Hit s := by
  unfold top1Hit top5Hit
  cases hp : s.pred with
  | nil => simp [hp]
  | cons a t =>
      by_cases ha : a = s.label
      · subst ha
        simp [List.take_succ_cons, List.count_cons_self]
      · simp [ha, Option.some_inj]

theorem top5Hit_le_one (s : Sample) (h : s.pred.Nodup) : top5Hit s ≤ 1 := by
  unfold top5Hit
  have hnd : (s.pred.take 5).Nodup := h.sublist (List.take_sublist 5 s.pred)
  exact List.nodup_iff_count_le_one.1 hnd s.label

theorem top1Sum_le_top5Sum (bs : List Batch) : top1Sum bs ≤ top5Sum bs := by
  unfold top1Sum top5Sum
  apply List.sum_le_sum
  intro b _
  apply List.sum_le_sum
  intro s _
  exact top1Hit_le_top5Hit s

theorem top5Sum_le_countSamples (bs : List Batch)
    (h : ∀ b ∈ bs, ∀ s ∈ b.samples, s.pred.Nodup) :
    top5Sum bs ≤ countSamples bs := by
  unfold top5Sum countSamples
  apply List.sum_le_sum
  intro b hb
  have hle : (b.samples.map top5Hit).sum ≤ (b.samples.map top5Hit).length • 1 := by
    apply List.sum_le_card_nsmul
    intro x hx
    obtain ⟨s, hs, rfl⟩ := List.mem_map.1 hx
    exact top5Hit_le_one s (h b hb s hs)
  simpa using hle

theorem foldl_max_mem (h : ℚ) (t : List ℚ) : t.foldl max h ∈ h :: t := by
  induction t generalizing h with
  | nil => simp
  | cons a t ih =>
      rw [List.foldl_cons]
      rcases List.mem_cons.1 (ih (max h a)) with h1 | h1
      · rcases max_choice h a with hm | hm
        · rw [h1, hm]; exact List.mem_cons_self _ _
        · rw [h1, hm]; exact List.mem_cons_of_mem _ (List.mem_cons_self _ _)
      · exact List.mem_cons_of_mem _ (List.mem_cons_of_mem _ h1)

theorem le_foldl_max (h : ℚ) (t : List ℚ) : ∀ x ∈ h :: t, x ≤ t.foldl max h := by
  induction t generalizing h with
  | nil => intro x hx; simp at hx; simp [hx]
  | cons a t ih =>
      intro x hx
      have hhead := ih (max h a) (max h a) (List.mem_cons_self _ _)
      rw [List.foldl_cons]
      rcases List.mem_cons.1 hx with rfl | hx1
      · exact le_trans (le_max_left x a) hhead
      · rcases List.mem_cons.1 hx1 with rfl | hx2
        · exact le_trans (le_max_right h x) hhead
        · exact ih (max h a) x (List.mem_cons_of_mem _ hx2)

theorem runEpochs_one_len (tr te : ℕ → EpochRecord) (n : ℕ) :
    (runEpochs 1 tr te n).trainHist.length = n ∧
    (runEpochs 1 tr te n).testHist.length = n := by
  induction n with
  | zero => simp [runEpochs]
  | succ n ih =>
      simp only [runEpochs, runEpoch, Nat.mod_one, if_pos]
      simp [ih.1, ih.2]

theorem scalerRun_counting (N : ℕ) (s : ℚ) :
    ∀ k, k < N → scalerRun N ⟨s, 0⟩ k = ⟨s, k⟩ := by
  intro k
  induction k with
  | zero => intro _; rfl
  | succ k ih =>
      intro hk
      rw [scalerRun, ih (by omega), scalerStep]
      simp [if_pos, Nat.succ_ne_self]
      omega

/-! ## Claim theorems -/

/-- C1: the claim that clipping is applied iff the warmup phase, measured
in steps, has ended is violated by the source gate `epoch > WARMUP_STEPS`:
with 100 steps per epoch and the source's `NUM_EPOCHS = 36`,
`WARMUP_STEPS = 36`, and at the first batch of epoch 1 the global step
counter is 100, past the 36-step warmup, yet the source gate compares the
epoch index 1 against 36 and leaves the gradients unclipped. -/
theorem c1_clip_gate_mismatch :
    warmupStepsOf 100 36 = 36 ∧
    stepIndex 100 1 0 = 100 ∧
    specClipGate 36 (stepIndex 100 1 0) = true ∧
    clipGate 36 1 = false := by decide

/-- C2: every epoch appends its training record to the train history
unconditionally; the test evaluation executes and its record is appended
to the test history exactly when `epoch % update_interval == 0`, and on
every other epoch the most recent test-history entry is used for the
report without being appended. -/
theorem c2_eval_cadence (k e : ℕ) (tr te : ℕ → EpochRecord)
    (st : LoopState) :
    (runEpoch k tr te e st).1.trainHist = st.trainHist ++ [tr e] ∧
    (e % k = 0 →
      (runEpoch k tr te e st).2.2 = true ∧
      (runEpoch k tr te e st).1.testHist = st.testHist ++ [te e] ∧
      (runEpoch k tr te e st).2.1 = te e) ∧
    (e % k ≠ 0 →
      (runEpoch k tr te e st).2.2 = false ∧
      (runEpoch k tr te e st).1.testHist = st.testHist ∧
      ∀ hne : st.testHist ≠ [],
        (runEpoch k tr te e st).2.1 = st.testHist.getLast hne) := by
  by_cases h : e % k = 0
  · simp [runEpoch, h]
  · refine ⟨by simp [runEpoch, h], fun hc => absurd hc h,
      fun _ => ⟨by simp [runEpoch, h], by simp [runEpoch, h], fun hne => ?_⟩⟩
    simp [runEpoch, h, List.getLastD_eq_getLast?, List.getLast?_eq_getLast _ hne]

theorem c2_witness :
    (runEpoch 3 (fun _ => zeroRec) (fun n => ⟨n, n, n⟩) 1
        ⟨[zeroRec], [⟨1, 2, 3⟩]⟩).1.trainHist = [zeroRec, zeroRec] ∧
    (runEpoch 3 (fun _ => zeroRec) (fun n => ⟨n, n, n⟩) 1
        ⟨[zeroRec], [⟨1, 2, 3⟩]⟩).2.2 = false ∧
    (runEpoch 3 (fun _ => zeroRec) (fun n => ⟨n, n, n⟩) 1
        ⟨[zeroRec], [⟨1, 2, 3⟩]⟩).1.testHist = [⟨1, 2, 3⟩] ∧
    (runEpoch 3 (fun _ => zeroRec) (fun n => ⟨n, n, n⟩) 1
        ⟨[zeroRec], [⟨1, 2, 3⟩]⟩).2.1 = ⟨1, 2, 3⟩ := by
  have h := c2_eval_cadence 3 1 (fun _ => zeroRec) (fun n => ⟨n, n, n⟩)
    ⟨[zeroRec], [⟨1, 2, 3⟩]⟩
  have h2 := h.2.2 (by decide)
  refine ⟨h.1, h2.1, h2.2.1, ?_⟩
  have h3 := h2.2.2 (by simp)
  simpa using h3

/-- C3: a metric pass over a non-empty batch stream produces exactly the
record `avg_loss = (Σ loss·batch_size) / (Σ batch_size)`,
`top1_pct = 100 · top1_correct / sample_count`,
`top5_pct = 100 · top5_correct / sample_count`, where each batch is
weighted by its actual sample count. -/
theorem c3_metric_record (bs : List Batch) (h : countSamples bs ≠ 0) :
    validate bs = some
      { loss := lossSum bs / countSamples bs
        top1 := 100 * (top1Sum bs : ℚ) / countSamples bs
        top5 := 100 * (top5Sum bs : ℚ) / countSamples bs } := by
  rw [validate_eq bs h]
  simp only [Option.some_inj, EpochRecord.mk.injEq, true_and]
  exact ⟨by ring, by ring⟩

theorem c3_witness :
    validate [⟨[⟨[3, 1, 2, 4, 5], 3⟩, ⟨[0, 7, 8, 9, 10], 7⟩], 2⟩] =
      some ⟨2, 50, 100⟩ := by
  rw [c3_metric_record _ (by decide)]
  norm_num [lossSum, countSamples, top1Sum, top5Sum, top1Hit, top5Hit]

/-- C4: the learning rate is `base_lr · (s + 1) / warmup_steps` for every
step `s < warmup_steps` and
`base_lr · 0.5 · (1 + cos(π · progress))` with the clamped progress for
every later step; the warmup phase is non-decreasing and ends at
`base_lr`, and the cosine phase is non-increasing and reaches 0 at
progress 1. -/
theorem c4_schedule (base : ℝ) (T w : ℕ) (hb : 0 ≤ base) (hw : 0 < w)
    (hwT : w < T) :
    (∀ s, s < w → lrAt base T w s = base * ((s : ℝ) + 1) / w) ∧
    (∀ s, w ≤ s → lrAt base T w s =
      base * (0.5 * (1 + Real.cos (Real.pi * progressAt T w s)))) ∧
    (∀ s, s + 1 < w → lrAt base T w s ≤ lrAt base T w (s + 1)) ∧
    lrAt base T w (w - 1) = base ∧
    (∀ s, w ≤ s → lrAt base T w (s + 1) ≤ lrAt base T w s) ∧
    lrAt base T w T = 0 := by
  have hw' : (0 : ℝ) < w := by exact_mod_cast hw
  refine ⟨fun s hs => by rw [lrAt, if_pos hs],
    fun s hs => by rw [lrAt, if_neg (not_lt.2 hs)],
    fun s hs => ?_, ?_,
    fun s hs => lrAt_cos_le base T w hb hs (Nat.le_succ s), ?_⟩
  · unfold lrAt
    rw [if_pos (show s < w by omega), if_pos hs]
    push_cast
    apply (div_le_div_iff_of_pos_right hw').2
    apply mul_le_mul_of_nonneg_left _ hb
    linarith
  · unfold lrAt
    rw [if_pos (show w - 1 < w by omega), Nat.cast_sub hw]
    push_cast
    rw [sub_add_cancel]
    field_simp
  · unfold lrAt
    rw [if_neg (by omega), progressAt_total T w hwT]
    norm_num [Real.cos_pi]

theorem c4_witness :
    (0 : ℝ) ≤ 0.08 ∧ 0 < 5 ∧ 5 < 20 ∧
    lrAt 0.08 20 5 4 = 0.08 ∧ lrAt 0.08 20 5 20 = 0 := by
  have h := c4_schedule 0.08 20 5 (by norm_num) (by norm_num) (by norm_num)
  refine ⟨by norm_num, by norm_num, by norm_num, ?_, h.2.2.2.2.2⟩
  have h4 := h.2.2.2.1
  have e54 : (5 : ℕ) - 1 = 4 := rfl
  rw [e54] at h4
  exact h4

/-- C5: counterexample to the claim that a step skipped for non-finite
gradients leaves the LR scheduler unadvanced and the running metric totals
untouched: at a concrete skipped step the source's loop body advances the
scheduler counter from 0 to 1 and accumulates the batch's sample into the
running totals. -/
theorem c5_counterexample :
    (trainStep 2000 false id ⟨[⟨[0, 1, 2, 3, 4], 0⟩], 1⟩
        ⟨0, ⟨16, 3⟩, 5, ⟨0, 0, 0, 0⟩⟩).schedCount = 1 ∧
    (trainStep 2000 false id ⟨[⟨[0, 1, 2, 3, 4], 0⟩], 1⟩
        ⟨0, ⟨16, 3⟩, 5, ⟨0, 0, 0, 0⟩⟩).metrics.totalSamples = 1 := by
  decide

/-- C5 (amended): on a step skipped for non-finite gradients the
parameters are unchanged and the scale is halved, but the scheduler
advance and the running-metric accumulation happen unconditionally, for
the skipped step too. -/
theorem c5_amended_skip_still_counts (N : ℕ) (upd : ℚ → ℚ) (b : Batch)
    (st : StepState) :
    (trainStep N false upd b st).params = st.params ∧
    (trainStep N false upd b st).scaler.scale = st.scaler.scale / 2 ∧
    (trainStep N false upd b st).schedCount = st.schedCount + 1 ∧
    (trainStep N false upd b st).metrics = stepAcc st.metrics b := by
  simp [trainStep, scalerStep]

/-- C6: a metric pass whose stream leaves `sample_count == 0` at
finalization fails (the `ZeroDivisionError` of the source, embedded as
`none`) instead of returning a record of zeros. -/
theorem c6_empty_stream (bs : List Batch)
    (h : (runAcc bs).totalSamples = 0) : validate bs = none := by
  unfold validate finalize
  simp [h]

theorem c6_witness : validate [] = none := c6_empty_stream [] rfl

/-- C7: when the test history is empty the controller's carried-forward
report is the all-zero sentinel record rather than a failure, and the
best-value query returns 0 on an empty history and the maximum of the
history otherwise, never raising. -/
theorem c7_sentinel_and_best :
    (∀ (k e : ℕ) (tr te : ℕ → EpochRecord) (trh : List EpochRecord),
      e % k ≠ 0 → (runEpoch k tr te e ⟨trh, []⟩).2.1 = zeroRec) ∧
    bestOf [] = 0 ∧
    (∀ l : List ℚ, l ≠ [] → bestOf l ∈ l ∧ ∀ x ∈ l, x ≤ bestOf l) := by
  refine ⟨fun k e tr te trh h => ?_, rfl, fun l hl => ?_⟩
  · simp [runEpoch, h]
  · cases l with
    | nil => exact absurd rfl hl
    | cons a t => exact ⟨foldl_max_mem a t, le_foldl_max a t⟩

theorem c7_witness :
    (runEpoch 3 (fun _ => zeroRec) (fun _ => zeroRec) 1 ⟨[], []⟩).2.1
      = zeroRec ∧
    bestOf [] = 0 ∧
    bestOf [2, 5, 3] ∈ [(2 : ℚ), 5, 3] ∧ (5 : ℚ) ≤ bestOf [2, 5, 3] := by
  have h := c7_sentinel_and_best
  exact ⟨h.1 3 1 _ _ [] (by decide), h.2.1,
    (h.2.2 [2, 5, 3] (by decide)).1,
    (h.2.2 [2, 5, 3] (by decide)).2 5 (by norm_num)⟩

/-- C8: on a step with any non-finite gradient the optimizer update is
skipped entirely (parameters unchanged) and the scale factor is halved;
after a run of `N` consecutive all-finite steps (`N` the growth interval)
the scale factor is doubled. -/
theorem c8_scaler (N : ℕ) (hN : 0 < N) :
    (∀ (upd : ℚ → ℚ) (p : ℚ) (st : ScalerState),
      scalerStep N false upd p st = (⟨st.scale / 2, 0⟩, p)) ∧
    ∀ s : ℚ, scalerRun N ⟨s, 0⟩ N = ⟨s * 2, 0⟩ := by
  refine ⟨fun upd p st => rfl, fun s => ?_⟩
  obtain ⟨m, rfl⟩ : ∃ m, N = m + 1 := ⟨N - 1, by omega⟩
  rw [scalerRun, scalerRun_counting (m + 1) s m (by omega), scalerStep]
  simp

theorem c8_witness :
    scalerStep 3 false id 7 ⟨16, 1⟩ = (⟨8, 0⟩, 7) ∧
    scalerRun 3 ⟨16, 0⟩ 3 = ⟨32, 0⟩ := by
  have h := c8_scaler 3 (by decide)
  refine ⟨?_, ?_⟩
  · rw [h.1]
    simp only [Prod.mk.injEq, ScalerState.mk.injEq]
    norm_num
  · rw [h.2]
    simp only [ScalerState.mk.injEq]
    norm_num

/-- C9: every record produced by a pass over a non-empty stream whose
per-sample top-5 prediction lists are duplicate-free satisfies
`0 ≤ top1_pct ≤ top5_pct ≤ 100`: the top-1 row is the first of the same
five prediction rows that define the top-5 count, so every top-1 hit is a
top-5 hit, and each sample contributes at most one top-5 hit. -/
theorem c9_top1_le_top5 (bs : List Batch)
    (hnd : ∀ b ∈ bs, ∀ s ∈ b.samples, s.pred.Nodup)
    (h : countSamples bs ≠ 0) :
    ∃ r, validate bs = some r ∧
      0 ≤ r.top1 ∧ r.top1 ≤ r.top5 ∧ r.top5 ≤ 100 := by
  refine ⟨_, validate_eq bs h, ?_, ?_, ?_⟩
  · have hn : (0 : ℚ) < countSamples bs :=
      by exact_mod_cast Nat.pos_of_ne_zero h
    positivity
  · have hn : (0 : ℚ) < countSamples bs :=
      by exact_mod_cast Nat.pos_of_ne_zero h
    have h15 : (top1Sum bs : ℚ) ≤ top5Sum bs :=
      by exact_mod_cast top1Sum_le_top5Sum bs
    apply mul_le_mul_of_nonneg_right _ (by norm_num : (0 : ℚ) ≤ 100)
    exact (div_le_div_iff_of_pos_right hn).2 h15
  · have hn : (0 : ℚ) < countSamples bs :=
      by exact_mod_cast Nat.pos_of_ne_zero h
    have h5n : (top5Sum bs : ℚ) ≤ countSamples bs :=
      by exact_mod_cast top5Sum_le_countSamples bs hnd
    have hle1 : (top5Sum bs : ℚ) / countSamples bs ≤ 1 :=
      (div_le_one hn).2 h5n
    nlinarith [hle1]

theorem c9_witness :
    ∃ r, validate [⟨[⟨[1, 2, 3, 4, 5], 9⟩], 4⟩] = some r ∧
      0 ≤ r.top1 ∧ r.top1 ≤ r.top5 ∧ r.top5 ≤ 100 :=
  c9_top1_le_top5 _ (by decide) (by decide)

/-- C10: with the shipped `METRICS_UPDATE_STEP = 1`, `epoch % 1 == 0`
holds for every epoch, so a genuine test evaluation runs every epoch, the
carried-forward branch is unreachable, and after every completed epoch `e`
both histories hold exactly `e + 1` records. -/
theorem c10_interval_one (tr te : ℕ → EpochRecord) (e : ℕ)
    (st : LoopState) :
    e % 1 = 0 ∧
    (runEpoch 1 tr te e st).2.2 = true ∧
    (runEpochs 1 tr te (e + 1)).trainHist.length = e + 1 ∧
    (runEpochs 1 tr te (e + 1)).testHist.length = e + 1 := by
  refine ⟨Nat.mod_one e, ?_, (runEpochs_one_len tr te (e + 1)).1,
    (runEpochs_one_len tr te (e + 1)).2⟩
  simp [runEpoch, Nat.mod_one]

end TinyLib
